import Mathlib

/-!
Shallow embedding of the `url-monitor` Netlify function
(`src/netlify/functions/url-monitor/index.mjs`) of the
`netlify-uptime-monitor` repository, together with proofs about its
expectation matcher, retry controller, single-probe executor,
concurrency scheduler and report aggregation.

Conventions of the embedding:
* JavaScript configuration values (the `expect` field of a monitor) are
  modelled by the inductive type `JSVal` of JSON-like values, with JS
  truthiness (`truthy`), `typeof x === "object"` classification, property
  lookup and `Array.isArray` modelled explicitly.
* JS numbers are modelled as `Int` (the program only ever works with
  integer status codes, counts and millisecond amounts).
* Network effects are modelled by oracles: a probe oracle
  `probe : Nat → Attempt` for the retry loop and a fetch oracle
  `net : Nat → FetchOutcome` for a single probe.
* Fallible/absent JS values (`null`/`undefined` status, error strings)
  are modelled with `Option`.
-/

/-- A JSON-like JavaScript value, as can appear in a monitor's `expect`
configuration field.  Objects are association lists with (as in JS)
at most one binding per key. -/
inductive JSVal where
  | str : String → JSVal
  | num : Int → JSVal
  | bool : Bool → JSVal
  | null : JSVal
  | undefined : JSVal
  | arr : List JSVal → JSVal
  | obj : List (String × JSVal) → JSVal

/-- JS truthiness of a value (`if (x)`): `""`, `0`, `false`, `null` and
`undefined` are falsy, every other value (including `[]` and `{}`) is
truthy. -/
def truthy : JSVal → Bool
  | JSVal.str s => s != ""
  | JSVal.num n => n != 0
  | JSVal.bool b => b
  | JSVal.null => false
  | JSVal.undefined => false
  | JSVal.arr _ => true
  | JSVal.obj _ => true

/-- Property lookup in an object's binding list; a missing property reads
as `undefined`, as in JS. -/
def lookupPairs : List (String × JSVal) → String → JSVal
  | [], _ => JSVal.undefined
  | (k, v) :: rest, key => if k = key then v else lookupPairs rest key

/-- `Array.isArray`. -/
def isArray : JSVal → Bool
  | JSVal.arr _ => true
  | _ => false

/-- `.length` of an array value (only used under an `isArray` guard). -/
def arrLen : JSVal → Nat
  | JSVal.arr xs => xs.length
  | _ => 0

/-- Strict equality test against the string literal `"2xx3xx"`. -/
def isStr2xx3xx : JSVal → Bool
  | JSVal.str s => s = "2xx3xx"
  | _ => false

/-- JS `ToNumber` coercion, restricted to the integer-valued shapes a
JSON configuration can contain; `none` stands for `NaN`.  Strings are
parsed as optionally signed decimal integers after trimming (the
fractional/hexadecimal cases of full JS `ToNumber` do not occur in
status-code configurations and are mapped to `NaN`). -/
def toNumber : JSVal → Option Int
  | JSVal.num n => some n
  | JSVal.bool b => some (if b then 1 else 0)
  | JSVal.null => some 0
  | JSVal.undefined => none
  | JSVal.str s => (fun t => if t = "" then some 0 else t.toInt?) s.trim
  | JSVal.arr [] => some 0
  | JSVal.arr [JSVal.num n] => some n
  | JSVal.arr _ => none
  | JSVal.obj _ => none

/-- JS `status >= v` for an integer `status` (false when `v` coerces to
`NaN`). -/
def numGE (s : Int) (v : JSVal) : Bool :=
  match toNumber v with
  | some m => decide (m ≤ s)
  | none => false

/-- JS `status <= v` for an integer `status` (false when `v` coerces to
`NaN`). -/
def numLE (s : Int) (v : JSVal) : Bool :=
  match toNumber v with
  | some m => decide (s ≤ m)
  | none => false

/-- The callback of `expect.oneOfRanges.some(...)`: a candidate range `r`
matches the status iff it is an array of length exactly 2 whose bounds
enclose the status inclusively; any malformed entry yields `false`. -/
def pairMatches (s : Int) (r : JSVal) : Bool :=
  match r with
  | JSVal.arr [mn, mx] => numGE s mn && numLE s mx
  | _ => false

/-- `expect.anyOf.includes(status)`: SameValueZero membership of the
integer status in the array (only numeric entries can match). -/
def includesNum (v : JSVal) (s : Int) : Bool :=
  match v with
  | JSVal.arr xs =>
      xs.any fun x =>
        match x with
        | JSVal.num n => n == s
        | _ => false
  | _ => false

/-- `expect.oneOfRanges.some(r => ...)`. -/
def someRange (v : JSVal) (s : Int) : Bool :=
  match v with
  | JSVal.arr rs => rs.any (pairMatches s)
  | _ => false

theorem sizeOf_lookupPairs (ps : List (String × JSVal)) (k : String) :
    sizeOf (lookupPairs ps k) < 1 + sizeOf ps := by
  induction ps with
  | nil => simp [lookupPairs]
  | cons p rest ih =>
      obtain ⟨k2, v⟩ := p
      simp only [lookupPairs]
      split
      · simp only [List.cons.sizeOf_spec, Prod.mk.sizeOf_spec]
        omega
      · refine lt_trans ih ?_
        simp only [List.cons.sizeOf_spec, Prod.mk.sizeOf_spec]
        omega

/-- `matchesExpectation` of the source for a present (non-null) status
code `s`: guard cascade over the rule value.  Mirrors, in order: the
falsy/`"2xx3xx"` default branch, then (for `typeof expect === "object"`,
i.e. array or object values — the `null` case is already consumed by the
falsy branch, and arrays have none of the properties set) the truthy
`not` negation, the `anyOf` array membership, the `between` length-2
array range, the `oneOfRanges` range set, and the final fail-safe
`false`. -/
def matchesE (s : Int) (e : JSVal) : Bool :=
  if (!truthy e || isStr2xx3xx e) = true then
    decide (200 ≤ s) && decide (s < 400)
  else
    match e with
    | JSVal.obj ps =>
        if truthy (lookupPairs ps "not") = true then
          !matchesE s (lookupPairs ps "not")
        else if (truthy (lookupPairs ps "anyOf") && isArray (lookupPairs ps "anyOf")) = true then
          includesNum (lookupPairs ps "anyOf") s
        else if (truthy (lookupPairs ps "between") && isArray (lookupPairs ps "between")
            && (arrLen (lookupPairs ps "between") == 2)) = true then
          pairMatches s (lookupPairs ps "between")
        else if (truthy (lookupPairs ps "oneOfRanges")
            && isArray (lookupPairs ps "oneOfRanges")) = true then
          someRange (lookupPairs ps "oneOfRanges") s
        else false
    | _ => false
termination_by sizeOf e
decreasing_by
  simp only [JSVal.obj.sizeOf_spec]
  exact sizeOf_lookupPairs ps "not"

/-- `matchesExpectation(status, expect)` of the source: a `null`
(network-failure) status never matches, otherwise defer to the guard
cascade `matchesE`. -/
def matchesExpectation (status : Option Int) (expect : JSVal) : Bool :=
  match status with
  | none => false
  | some s => matchesE s expect

/-- The rule shapes recognized by the matcher's guards: the default
sentinel (a falsy value or the string `"2xx3xx"`), or an object carrying
a truthy `not`, a truthy-array `anyOf`, a truthy length-2-array
`between`, or a truthy-array `oneOfRanges`. -/
def recognizedShape (e : JSVal) : Bool :=
  if (!truthy e || isStr2xx3xx e) = true then true
  else
    match e with
    | JSVal.obj ps =>
        truthy (lookupPairs ps "not")
        || (truthy (lookupPairs ps "anyOf") && isArray (lookupPairs ps "anyOf"))
        || (truthy (lookupPairs ps "between") && isArray (lookupPairs ps "between")
            && (arrLen (lookupPairs ps "between") == 2))
        || (truthy (lookupPairs ps "oneOfRanges") && isArray (lookupPairs ps "oneOfRanges"))
    | _ => false

/-- Building a negation rule, `{ not: R }`. -/
def negateRule (r : JSVal) : JSVal :=
  JSVal.obj [("not", r)]

theorem matchesE_obj_not (s : Int) (ps : List (String × JSVal))
    (h : truthy (lookupPairs ps "not") = true) :
    matchesE s (JSVal.obj ps) = !matchesE s (lookupPairs ps "not") := by
  rw [matchesE]
  rw [show (!truthy (JSVal.obj ps) || isStr2xx3xx (JSVal.obj ps)) = false from rfl]
  rw [h]
  simp

theorem matchesE_unrecognized (s : Int) (e : JSVal)
    (h : recognizedShape e = false) :
    matchesE s e = false := by
  delta recognizedShape at h
  rw [matchesE.eq_def]
  by_cases hd : (!truthy e || isStr2xx3xx e) = true
  · rw [if_pos hd] at h
    cases h
  · rw [if_neg hd] at h ⊢
    cases e with
    | obj ps =>
        simp only [Bool.or_eq_false_iff] at h
        simp [h]
    | str v => simp
    | num n => simp
    | bool b => simp
    | null => simp
    | undefined => simp
    | arr xs => simp

/-- C3: for every acceptance rule, including negations at any nesting
depth, evaluating the matcher with an absent (null) status code returns
`false`. -/
theorem mon_C3_absent_never_matches (r : JSVal) :
    matchesExpectation none r = false := rfl

/-- C2, counterexample: the claimed involution
`matches(x, negate(R)) == !matches(x, R)` fails on the code at the
explicit inputs it itself includes.  With the absent status and the
default rule `R = "2xx3xx"`, the left side is `false` (an absent status
never matches anything) while the right side is `true`; and with status
`500` and the falsy default-rule representation `R = null`, the guard
`if (expect.not)` skips the negation branch of `{ not: null }`, so the
left side is `false` while the right side is `true`. -/
theorem mon_C2_counterexample :
    matchesExpectation none (negateRule (JSVal.str "2xx3xx")) = false
    ∧ (!matchesExpectation none (JSVal.str "2xx3xx")) = true
    ∧ matchesExpectation (some 500) (negateRule JSVal.null) = false
    ∧ (!matchesExpectation (some 500) JSVal.null) = true := by
  refine ⟨rfl, rfl, ?_, ?_⟩
  · simp only [matchesExpectation, negateRule]
    rw [matchesE.eq_def]
    simp [lookupPairs, truthy, isStr2xx3xx]
  · simp [matchesExpectation, matchesE, truthy, isStr2xx3xx]

/-- C2, amended: for every present (integer) status code `s` and every
rule `R` whose representation is truthy (every object-form rule and the
string sentinel `"2xx3xx"`; only the absent/falsy representation of the
default rule is excluded), `matches(s, { not: R }) = !matches(s, R)`. -/
theorem mon_C2_negation_involution (s : Int) (r : JSVal)
    (h : truthy r = true) :
    matchesExpectation (some s) (negateRule r)
      = !matchesExpectation (some s) r := by
  simp only [matchesExpectation, negateRule]
  have hl : lookupPairs [("not", r)] "not" = r := by simp [lookupPairs]
  rw [matchesE_obj_not s [("not", r)] (by rw [hl]; exact h), hl]

/-- C2, witness: the amended involution applied at status `500` and the
truthy rule `"2xx3xx"`. -/
theorem mon_C2_witness :
    truthy (JSVal.str "2xx3xx") = true
    ∧ matchesExpectation (some 500) (negateRule (JSVal.str "2xx3xx"))
        = !matchesExpectation (some 500) (JSVal.str "2xx3xx") :=
  ⟨by decide, mon_C2_negation_involution 500 (JSVal.str "2xx3xx") (by decide)⟩

/-- C8: for every status code (present or absent) and every rule value
whose shape is none of the recognized forms, the matcher returns `false`
(the embedding is a total Lean function, so no exception can occur); and
the `oneOfRanges` callback maps every malformed entry (not an array, or
an array whose length differs from 2) to not-matching. A `between`
value that is not an array of length exactly 2 fails the `between`
guard, so an object carrying only such a `between` is itself an
unrecognized shape covered by the first part. -/
theorem mon_C8_unrecognized_fail_safe :
    (∀ (s : Option Int) (e : JSVal), recognizedShape e = false →
        matchesExpectation s e = false)
    ∧ (∀ (s : Int) (r : JSVal), (isArray r && (arrLen r == 2)) = false →
        pairMatches s r = false) := by
  constructor
  · intro s e h
    cases s with
    | none => rfl
    | some s => exact matchesE_unrecognized s e h
  · intro s r h
    cases r with
    | arr xs =>
        cases xs with
        | nil => rfl
        | cons a t =>
            cases t with
            | nil => rfl
            | cons b t2 =>
                cases t2 with
                | nil => simp [isArray, arrLen] at h
                | cons c t3 => rfl
    | str v => rfl
    | num n => rfl
    | bool b => rfl
    | null => rfl
    | undefined => rfl
    | obj ps => rfl

/-- C8, witness: the unrecognized rule `5` never matches (here at status
`200`), and the malformed length-1 range entry `[200]` is rejected by the
`oneOfRanges` callback at status `250`. -/
theorem mon_C8_witness :
    recognizedShape (JSVal.num 5) = false
    ∧ matchesExpectation (some 200) (JSVal.num 5) = false
    ∧ (isArray (JSVal.arr [JSVal.num 200])
        && (arrLen (JSVal.arr [JSVal.num 200]) == 2)) = false
    ∧ pairMatches 250 (JSVal.arr [JSVal.num 200]) = false :=
  ⟨by decide,
   mon_C8_unrecognized_fail_safe.1 (some 200) (JSVal.num 5) (by decide),
   by decide,
   mon_C8_unrecognized_fail_safe.2 250 (JSVal.arr [JSVal.num 200]) (by decide)⟩

/-- C9: for every present integer status code and every object rule whose
`not` property is truthy, the matcher returns the boolean negation of
evaluating that property — even when the inner value is an
unrecognized/malformed rule shape, in which case the negation returns
`true` for every integer status code, bypassing the fail-safe. -/
theorem mon_C9_negation_bypasses_fail_safe :
    (∀ (s : Int) (ps : List (String × JSVal)),
        truthy (lookupPairs ps "not") = true →
        matchesExpectation (some s) (JSVal.obj ps)
          = !matchesExpectation (some s) (lookupPairs ps "not"))
    ∧ (∀ (s : Int) (inner : JSVal),
        truthy inner = true → recognizedShape inner = false →
        matchesExpectation (some s) (negateRule inner) = true) := by
  constructor
  · intro s ps h
    exact matchesE_obj_not s ps h
  · intro s inner ht hr
    simp only [matchesExpectation, negateRule]
    have hl : lookupPairs [("not", inner)] "not" = inner := by simp [lookupPairs]
    rw [matchesE_obj_not s [("not", inner)] (by rw [hl]; exact ht), hl,
      matchesE_unrecognized s inner hr]
    rfl

/-- C9, witness: the negation of the malformed rule `7` (truthy,
unrecognized) matches the status `123`. -/
theorem mon_C9_witness :
    truthy (JSVal.num 7) = true
    ∧ recognizedShape (JSVal.num 7) = false
    ∧ matchesExpectation (some 123) (negateRule (JSVal.num 7)) = true :=
  ⟨by decide, by decide,
   mon_C9_negation_bypasses_fail_safe.2 123 (JSVal.num 7) (by decide) (by decide)⟩

/-- Outcome of one probe (`checkOnce`'s return value): `ok`, `status`,
`statusText`, `error` and `durationMs` fields; `none` models JS `null`.
Wall-clock durations are not modelled, so `durationMs` is carried as an
opaque integer. -/
structure Attempt where
  ok : Bool
  status : Option Int
  statusText : Option String
  error : Option String
  durationMs : Int

/-- A monitor configuration entry (the fields the core logic reads).
`method = none` models an absent `method` property and `expect` is the
raw configured value (`JSVal.undefined` when absent). -/
structure Monitor where
  url : String
  method : Option String
  expect : JSVal

/-- `backoffMs(attemptIndex)` of the source:
`Math.min(2000, 250 * Math.pow(2, attemptIndex - 1))`. -/
def backoffMs (i : Nat) : Nat :=
  min 2000 (250 * 2 ^ (i - 1))

/-- `monitor.expect ?? "2xx3xx"` (nullish coalescing). -/
def expectOrDefault : JSVal → JSVal
  | JSVal.null => JSVal.str "2xx3xx"
  | JSVal.undefined => JSVal.str "2xx3xx"
  | e => e

/-- The summary object returned by `checkWithRetries`
(via `summarizeAttempts`). -/
structure Summary where
  url : String
  ok : Bool
  expect : JSVal
  method : String
  attempts : Nat
  lastStatus : Option Int
  lastError : Option String
  attemptDetails : List Attempt

/-- `summarizeAttempts(monitor, attempts)` of the source.  The JS code
reads `attempts[attempts.length - 1]`, which is only well defined for a
non-empty list; both call sites pass a non-empty list (proved in the
retry-controller invariant), and the embedding uses a junk default for
the impossible empty case. -/
def summarizeAttempts (m : Monitor) (attempts : List Attempt) : Summary :=
  let last := attempts.getLastD ⟨false, none, none, none, 0⟩
  { url := m.url
    ok := attempts.any (·.ok)
    expect := expectOrDefault m.expect
    method := m.method.getD "HEAD"
    attempts := attempts.length
    lastStatus := last.status
    lastError := last.error
    attemptDetails := attempts }

/-- `Math.max(1, retries + 1)` — the number of attempts allowed. -/
def attemptsAllowed (retries : Int) : Nat :=
  (max 1 (retries + 1)).toNat

/-- The `for (let i = 1; i <= totalAttempts; i++)` loop body of
`checkWithRetries`, with the per-attempt probe outcome supplied by the
oracle `probe` (abstracting `checkOnce`), the 1-based loop index `i`, and
the number of remaining allowed attempts as the recursion fuel.  Returns
the recorded attempts and the list of backoff delays slept (in order):
a success stops the loop immediately, and a backoff sleep of
`backoffMs i` happens only after a failed attempt that is not the last
allowed one. -/
def checkLoop (probe : Nat → Attempt) : Nat → Nat → List Attempt × List Nat
  | _, 0 => ([], [])
  | i, remaining + 1 =>
      let a := probe i
      if a.ok then ([a], [])
      else if remaining = 0 then ([a], [])
      else
        let rest := checkLoop probe (i + 1) remaining
        (a :: rest.1, backoffMs i :: rest.2)

/-- `checkWithRetries(monitor, { retries })` of the source, with the
network abstracted by the probe oracle: runs the attempt loop starting at
index 1 with `max(1, retries + 1)` allowed attempts, and summarizes the
recorded attempts.  The second component is the sequence of backoff
delays slept, in order. -/
def checkWithRetries (m : Monitor) (retries : Int) (probe : Nat → Attempt) :
    Summary × List Nat :=
  let r := checkLoop probe 1 (attemptsAllowed retries)
  (summarizeAttempts m r.1, r.2)

theorem checkLoop_ne_nil (probe : Nat → Attempt) (i r : Nat) (hr : 0 < r) :
    (checkLoop probe i r).1 ≠ [] := by
  cases r with
  | zero => omega
  | succ rem =>
      rw [checkLoop]
      split
      · simp
      · split
        · simp
        · simp

theorem checkLoop_length_le (probe : Nat → Attempt) (i r : Nat) :
    (checkLoop probe i r).1.length ≤ r := by
  induction r generalizing i with
  | zero => simp [checkLoop]
  | succ rem ih =>
      rw [checkLoop]
      split
      · simp
      · split
        · simp
        · simpa using ih (i + 1)

theorem checkLoop_all_fail (probe : Nat → Attempt) (i r : Nat)
    (h : ∀ j, i ≤ j → j < i + r → (probe j).ok = false) :
    (checkLoop probe i r).1 = (List.range r).map (fun t => probe (i + t)) := by
  induction r generalizing i with
  | zero => simp [checkLoop]
  | succ rem ih =>
      rw [checkLoop]
      have hi : (probe i).ok = false := h i (le_refl i) (by omega)
      rw [hi]
      simp only [Bool.false_eq_true, if_false]
      by_cases hrem : rem = 0
      · subst hrem
        simp [List.range_succ]
      · rw [if_neg hrem]
        dsimp only
        rw [ih (i + 1) (fun j hj1 hj2 => h j (by omega) (by omega))]
        rw [List.range_succ_eq_map]
        simp only [List.map_cons, List.map_map, Nat.add_zero]
        congr 1
        apply List.map_congr_left
        intro t _
        simp only [Function.comp_apply]
        congr 1
        omega

theorem checkLoop_first_success (probe : Nat → Attempt) (i r k : Nat)
    (hk : k < r)
    (hfail : ∀ j, i ≤ j → j < i + k → (probe j).ok = false)
    (hok : (probe (i + k)).ok = true) :
    (checkLoop probe i r).1 = (List.range (k + 1)).map (fun t => probe (i + t)) := by
  induction k generalizing i r with
  | zero =>
      cases r with
      | zero => omega
      | succ rem =>
          rw [checkLoop]
          simp only [Nat.add_zero] at hok
          rw [hok]
          simp [List.range_succ]
  | succ k ih =>
      cases r with
      | zero => omega
      | succ rem =>
          rw [checkLoop]
          have hi : (probe i).ok = false := hfail i le_rfl (by omega)
          rw [hi]
          simp only [Bool.false_eq_true, if_false]
          have hrem : rem ≠ 0 := by omega
          rw [if_neg hrem]
          dsimp only
          rw [List.range_succ_eq_map, List.map_cons, List.map_map, Nat.add_zero]
          congr 1
          rw [ih (i + 1) rem (by omega)
            (fun j h1 h2 => hfail j (by omega) (by omega))
            (by rw [show i + 1 + k = i + (k + 1) from by omega]; exact hok)]
          apply List.map_congr_left
          intro t _
          simp only [Function.comp_apply]
          congr 1
          omega

theorem checkLoop_delays (probe : Nat → Attempt) (i r : Nat) :
    (checkLoop probe i r).2
      = (List.range ((checkLoop probe i r).1.length - 1)).map
          (fun t => backoffMs (i + t)) := by
  induction r generalizing i with
  | zero => simp [checkLoop]
  | succ rem ih =>
      rw [checkLoop]
      by_cases hok : (probe i).ok = true
      · rw [hok]
        simp
      · rw [show (probe i).ok = false from by revert hok; cases (probe i).ok <;> simp]
        simp only [Bool.false_eq_true, if_false]
        by_cases hrem : rem = 0
        · subst hrem
          simp
        · rw [if_neg hrem]
          dsimp only
          have hne := checkLoop_ne_nil probe (i + 1) rem (by omega)
          have hlen : 0 < (checkLoop probe (i + 1) rem).1.length :=
            List.length_pos.mpr hne
          simp only [List.length_cons, Nat.add_sub_cancel]
          rw [show (checkLoop probe (i + 1) rem).1.length
              = ((checkLoop probe (i + 1) rem).1.length - 1) + 1 from by omega]
          rw [List.range_succ_eq_map, List.map_cons, List.map_map, Nat.add_zero]
          congr 1
          rw [ih (i + 1)]
          apply List.map_congr_left
          intro t _
          simp only [Function.comp_apply]
          congr 1
          omega

theorem checkLoop_dropLast_fail (probe : Nat → Attempt) (i r : Nat) :
    ∀ a ∈ (checkLoop probe i r).1.dropLast, a.ok = false := by
  induction r generalizing i with
  | zero => simp [checkLoop]
  | succ rem ih =>
      rw [checkLoop]
      by_cases hok : (probe i).ok = true
      · rw [hok]
        simp
      · have hif : (probe i).ok = false := by revert hok; cases (probe i).ok <;> simp
        rw [hif]
        simp only [Bool.false_eq_true, if_false]
        by_cases hrem : rem = 0
        · subst hrem
          simp
        · rw [if_neg hrem]
          dsimp only
          obtain ⟨b, t, hbt⟩ :=
            List.exists_cons_of_ne_nil (checkLoop_ne_nil probe (i + 1) rem (by omega))
          rw [hbt]
          rw [List.dropLast_cons₂]
          intro a ha
          rcases List.mem_cons.mp ha with h1 | h2
          · rw [h1]
            exact hif
          · exact ih (i + 1) a (by rw [hbt]; exact h2)

theorem attemptsAllowed_pos (retries : Int) : 0 < attemptsAllowed retries := by
  unfold attemptsAllowed
  have h1 : (1 : Int) ≤ max 1 (retries + 1) := le_max_left _ _
  omega

theorem list_any_ok_eq_last (l : List Attempt)
    (h : ∀ a ∈ l.dropLast, a.ok = false) :
    ∀ last, l.getLast? = some last → l.any (·.ok) = last.ok := by
  induction l with
  | nil => intro last hl; cases hl
  | cons a t ih =>
      intro last hl
      cases t with
      | nil =>
          simp only [List.getLast?_singleton, Option.some.injEq] at hl
          subst hl
          simp
      | cons b t2 =>
          have ha : a.ok = false := by
            apply h a
            rw [List.dropLast_cons₂]
            exact List.mem_cons_self a _
          have hl2 : (b :: t2).getLast? = some last := by
            rw [List.getLast?_cons_cons] at hl
            exact hl
          have hrec := ih (fun x hx => h x (by
            rw [List.dropLast_cons₂]
            exact List.mem_cons_of_mem a hx)) last hl2
          simp only [List.any_cons, ha, Bool.false_or]
          exact hrec

/-- C1: for every target, retry count `R` and probe-outcome sequence,
`checkWithRetries` records at most `max(1, R+1)` attempts; if the first
`N-1` attempts fail and the `N`-th succeeds (`N ≤ max(1, R+1)`), it stops
immediately after the `N`-th attempt, recording exactly the first `N`
probe outcomes with overall `ok = true`; if all allowed attempts fail, it
records exactly `max(1, R+1)` attempts with overall `ok = false`; and the
overall `ok` flag is true iff at least one recorded attempt succeeded. -/
theorem mon_C1_retry_controller (m : Monitor) (retries : Int)
    (probe : Nat → Attempt) :
    ((checkWithRetries m retries probe).1.attempts ≤ attemptsAllowed retries)
    ∧ (∀ N : Nat, 1 ≤ N → N ≤ attemptsAllowed retries →
        (∀ j, 1 ≤ j → j < N → (probe j).ok = false) → (probe N).ok = true →
        (checkWithRetries m retries probe).1.attempts = N
          ∧ (checkWithRetries m retries probe).1.ok = true
          ∧ (checkWithRetries m retries probe).1.attemptDetails
              = (List.range N).map (fun t => probe (1 + t)))
    ∧ ((∀ j, 1 ≤ j → j ≤ attemptsAllowed retries → (probe j).ok = false) →
        (checkWithRetries m retries probe).1.attempts = attemptsAllowed retries
          ∧ (checkWithRetries m retries probe).1.ok = false)
    ∧ ((checkWithRetries m retries probe).1.ok = true
        ↔ ∃ a ∈ (checkWithRetries m retries probe).1.attemptDetails, a.ok = true) := by
  refine ⟨?_, ?_, ?_, ?_⟩
  · show (checkLoop probe 1 (attemptsAllowed retries)).1.length ≤ attemptsAllowed retries
    exact checkLoop_length_le probe 1 (attemptsAllowed retries)
  · intro N h1 h2 hfail hok
    have heq := checkLoop_first_success probe 1 (attemptsAllowed retries) (N - 1)
      (by omega)
      (fun j hj1 hj2 => hfail j hj1 (by omega))
      (by rw [show 1 + (N - 1) = N from by omega]; exact hok)
    rw [show N - 1 + 1 = N from by omega] at heq
    refine ⟨?_, ?_, ?_⟩
    · show (checkLoop probe 1 (attemptsAllowed retries)).1.length = N
      rw [heq]
      simp
    · show (checkLoop probe 1 (attemptsAllowed retries)).1.any (·.ok) = true
      rw [heq, List.any_eq_true]
      refine ⟨probe (1 + (N - 1)), ?_, ?_⟩
      · exact List.mem_map.mpr ⟨N - 1, List.mem_range.mpr (by omega), rfl⟩
      · rw [show 1 + (N - 1) = N from by omega]
        exact hok
    · exact heq
  · intro hfail
    have heq := checkLoop_all_fail probe 1 (attemptsAllowed retries)
      (fun j hj1 hj2 => hfail j hj1 (by omega))
    constructor
    · show (checkLoop probe 1 (attemptsAllowed retries)).1.length = attemptsAllowed retries
      rw [heq]
      simp
    · show (checkLoop probe 1 (attemptsAllowed retries)).1.any (·.ok) = false
      rw [heq, List.any_eq_false]
      intro a ha
      obtain ⟨t, ht, rfl⟩ := List.mem_map.mp ha
      have := hfail (1 + t) (by omega) (by
        have := List.mem_range.mp ht
        omega)
      simp [this]
  · show (checkLoop probe 1 (attemptsAllowed retries)).1.any (·.ok) = true ↔ _
    exact List.any_eq_true

/-- C1, witness: with 2 retries (3 allowed attempts) and a probe that
fails on the first attempt and succeeds on the second, the loop stops
after attempt 2 with overall success. -/
theorem mon_C1_witness :
    (checkWithRetries ⟨"https://example.com", some "HEAD", JSVal.undefined⟩ 2
        (fun j => ⟨j == 2, some (if j == 2 then 200 else 500), some "", none, 0⟩)).1.attempts
        = 2
    ∧ (checkWithRetries ⟨"https://example.com", some "HEAD", JSVal.undefined⟩ 2
        (fun j => ⟨j == 2, some (if j == 2 then 200 else 500), some "", none, 0⟩)).1.ok
        = true := by
  have h := (mon_C1_retry_controller ⟨"https://example.com", some "HEAD", JSVal.undefined⟩ 2
    (fun j => ⟨j == 2, some (if j == 2 then 200 else 500), some "", none, 0⟩)).2.1 2
    (by omega) (by decide)
    (by intro j hj1 hj2
        have : j = 1 := by omega
        subst this
        decide)
    (by decide)
  exact ⟨h.1, h.2.1⟩

/-- C10: every summary produced by `checkWithRetries` has a non-empty
attempt list, every recorded attempt except possibly the last failed,
and the summary's `ok`, `lastStatus` and `lastError` are taken from the
well-defined last attempt (with `ok` equal to the last attempt's `ok`
flag). -/
theorem mon_C10_summary_invariant (m : Monitor) (retries : Int)
    (probe : Nat → Attempt) :
    ((checkWithRetries m retries probe).1.attemptDetails ≠ [])
    ∧ (∀ a ∈ (checkWithRetries m retries probe).1.attemptDetails.dropLast,
        a.ok = false)
    ∧ (∃ last,
        (checkWithRetries m retries probe).1.attemptDetails.getLast? = some last
        ∧ (checkWithRetries m retries probe).1.ok = last.ok
        ∧ (checkWithRetries m retries probe).1.lastStatus = last.status
        ∧ (checkWithRetries m retries probe).1.lastError = last.error) := by
  have hne : (checkLoop probe 1 (attemptsAllowed retries)).1 ≠ [] :=
    checkLoop_ne_nil probe 1 (attemptsAllowed retries) (attemptsAllowed_pos retries)
  have hdrop := checkLoop_dropLast_fail probe 1 (attemptsAllowed retries)
  obtain ⟨last, hlast⟩ :=
    Option.ne_none_iff_exists'.mp (mt List.getLast?_eq_none_iff.mp hne)
  refine ⟨hne, hdrop, last, hlast, ?_, ?_, ?_⟩
  · show (checkLoop probe 1 (attemptsAllowed retries)).1.any (·.ok) = last.ok
    exact list_any_ok_eq_last _ hdrop last hlast
  · show ((checkLoop probe 1 (attemptsAllowed retries)).1.getLastD
        ⟨false, none, none, none, 0⟩).status = last.status
    rw [List.getLastD_eq_getLast?, hlast]
    rfl
  · show ((checkLoop probe 1 (attemptsAllowed retries)).1.getLastD
        ⟨false, none, none, none, 0⟩).error = last.error
    rw [List.getLastD_eq_getLast?, hlast]
    rfl

/-- C10, witness: the invariant instantiated at retries 0 and a probe
that always fails with status 503. -/
theorem mon_C10_witness :
    (checkWithRetries ⟨"https://example.com", none, JSVal.undefined⟩ 0
        (fun _ => ⟨false, some 503, some "", none, 0⟩)).1.attemptDetails ≠ [] :=
  (mon_C10_summary_invariant ⟨"https://example.com", none, JSVal.undefined⟩ 0
    (fun _ => ⟨false, some 503, some "", none, 0⟩)).1

/-- C4: the backoff delays slept by `checkWithRetries` are exactly one
per recorded attempt except the last (none after the final allowed
attempt, none after a success), the delay following the `i`-th failed
attempt (1-based) being `backoffMs i = min(2000, 250 * 2^(i-1))` ms; in
particular with 4 retries and every attempt failing, the delays after
the first four failures are exactly 250, 500, 1000, 2000 ms. -/
theorem mon_C4_backoff (m : Monitor) (retries : Int) (probe : Nat → Attempt) :
    ((checkWithRetries m retries probe).2
        = (List.range ((checkWithRetries m retries probe).1.attempts - 1)).map
            (fun t => backoffMs (1 + t)))
    ∧ (∀ i : Nat, backoffMs (i + 1) = min 2000 (250 * 2 ^ i))
    ∧ (checkWithRetries m 4 (fun _ => ⟨false, some 500, some "", none, 0⟩)).2
        = [250, 500, 1000, 2000] := by
  refine ⟨?_, ?_, ?_⟩
  · exact checkLoop_delays probe 1 (attemptsAllowed retries)
  · intro i
    simp [backoffMs]
  · rfl

/-- An outbound request issued by `checkOnce`: destination and HTTP
method. -/
structure FetchReq where
  url : String
  method : String

/-- Outcome of one `fetch` call as supplied by the network: either a
response with a status code and status text, or a thrown failure
(`isAbort = true` models an `AbortError` from the timeout). -/
inductive FetchOutcome where
  | resp : Int → String → FetchOutcome
  | fail : Bool → String → FetchOutcome

/-- `monitor.method || "HEAD"` — JS truthiness on the string, so both an
absent method and the empty string fall back to `"HEAD"`. -/
def probeMethod (m : Monitor) : String :=
  match m.method with
  | none => "HEAD"
  | some s => if s = "" then "HEAD" else s

/-- Translation of a fetch outcome into the `Attempt` record built by
`checkOnce`: a response yields `ok = matchesExpectation(status, expect)`
with the status recorded regardless of whether it matched; a thrown
failure yields a failed attempt with `status = null` and
`error = "timeout"` for an abort, the thrown message otherwise.
Durations are not modelled (`durationMs = 0`). -/
def attemptOfOutcome (expect : JSVal) (o : FetchOutcome) : Attempt :=
  match o with
  | FetchOutcome.resp s t =>
      ⟨matchesExpectation (some s) expect, some s, some t, none, 0⟩
  | FetchOutcome.fail ab msg =>
      ⟨false, none, none, some (if ab then "timeout" else msg), 0⟩

/-- `checkOnce(monitor, { timeoutMs })` of the source, with the network
abstracted by the oracle `net` giving the outcome of the `k`-th `fetch`
issued during this probe.  Returns the `Attempt` together with the list
of outbound requests issued, in order: a first request with the
configured probe method; then, only when that request yielded a response
with status exactly 405 or 501 and the probe method is `HEAD`, a single
follow-up `GET` to the same address whose outcome alone determines the
`Attempt`.  A throw from either `fetch` is caught and becomes a failed
`Attempt`. -/
def checkOnce (m : Monitor) (net : Nat → FetchOutcome) :
    Attempt × List FetchReq :=
  let method := probeMethod m
  match net 0 with
  | FetchOutcome.resp s1 _ =>
      if ((s1 == 405 || s1 == 501) && (method == "HEAD")) = true then
        (attemptOfOutcome m.expect (net 1),
         [⟨m.url, method⟩, ⟨m.url, "GET"⟩])
      else
        (attemptOfOutcome m.expect (net 0), [⟨m.url, method⟩])
  | FetchOutcome.fail _ _ =>
      (attemptOfOutcome m.expect (net 0), [⟨m.url, method⟩])

/-- C5: for every probe, if the configured probe method is `HEAD` and the
first response's status is exactly 405 or 501, exactly one follow-up
`GET` to the same address is issued and the `Attempt` is built from the
second outcome only; in every other case — any other response status,
any non-`HEAD` probe method, or a transport failure of the first request
— exactly the one configured request is issued and the `Attempt` is
built from its outcome; and a probe never issues more than two
requests. -/
theorem mon_C5_head_get_fallback (m : Monitor) (net : Nat → FetchOutcome) :
    (∀ s1 t1, net 0 = FetchOutcome.resp s1 t1 →
        probeMethod m = "HEAD" → (s1 = 405 ∨ s1 = 501) →
        (checkOnce m net).2 = [⟨m.url, "HEAD"⟩, ⟨m.url, "GET"⟩]
          ∧ (checkOnce m net).1 = attemptOfOutcome m.expect (net 1))
    ∧ (∀ s1 t1, net 0 = FetchOutcome.resp s1 t1 →
        ¬(probeMethod m = "HEAD" ∧ (s1 = 405 ∨ s1 = 501)) →
        (checkOnce m net).2 = [⟨m.url, probeMethod m⟩]
          ∧ (checkOnce m net).1 = attemptOfOutcome m.expect (net 0))
    ∧ (∀ ab msg, net 0 = FetchOutcome.fail ab msg →
        (checkOnce m net).2 = [⟨m.url, probeMethod m⟩]
          ∧ (checkOnce m net).1 = attemptOfOutcome m.expect (net 0))
    ∧ (checkOnce m net).2.length ≤ 2 := by
  refine ⟨?_, ?_, ?_, ?_⟩
  · intro s1 t1 hresp hmeth hs
    have hcond : ((s1 == 405 || s1 == 501) && (probeMethod m == "HEAD")) = true := by
      rcases hs with h | h <;> subst h <;> rw [hmeth] <;> rfl
    rw [checkOnce]
    rw [hresp]
    dsimp only
    rw [hmeth] at hcond ⊢
    rw [if_pos hcond]
    exact ⟨rfl, rfl⟩
  · intro s1 t1 hresp hneg
    have hcond : ((s1 == 405 || s1 == 501) && (probeMethod m == "HEAD")) = false := by
      rcases Bool.eq_false_or_eq_true ((s1 == 405 || s1 == 501) && (probeMethod m == "HEAD"))
        with h | h
      · exfalso
        apply hneg
        simp only [Bool.and_eq_true, Bool.or_eq_true, beq_iff_eq] at h
        exact ⟨h.2, h.1⟩
      · exact h
    rw [checkOnce]
    rw [hresp]
    dsimp only
    rw [hcond]
    simp only [Bool.false_eq_true, if_false]
    exact ⟨trivial, trivial⟩
  · intro ab msg hfail
    rw [checkOnce]
    rw [hfail]
    exact ⟨rfl, rfl⟩
  · rw [checkOnce]
    cases net 0 with
    | resp s1 t1 =>
        dsimp only
        split
        · simp
        · simp
    | fail ab msg => simp

/-- C5, witness: a `HEAD` probe answered 405 issues exactly the fallback
`GET` and takes its attempt from the second response, while a `HEAD`
probe answered 200 and a `GET` probe answered 405 issue a single
request. -/
theorem mon_C5_witness :
    ((checkOnce ⟨"https://a.example", some "HEAD", JSVal.undefined⟩
        (fun k => if k = 0 then FetchOutcome.resp 405 "Method Not Allowed"
                  else FetchOutcome.resp 200 "OK")).2
      = [⟨"https://a.example", "HEAD"⟩, ⟨"https://a.example", "GET"⟩]
    ∧ (checkOnce ⟨"https://a.example", some "HEAD", JSVal.undefined⟩
        (fun k => if k = 0 then FetchOutcome.resp 405 "Method Not Allowed"
                  else FetchOutcome.resp 200 "OK")).1
      = attemptOfOutcome JSVal.undefined (FetchOutcome.resp 200 "OK"))
    ∧ (checkOnce ⟨"https://a.example", some "HEAD", JSVal.undefined⟩
        (fun _ => FetchOutcome.resp 200 "OK")).2
      = [⟨"https://a.example", "HEAD"⟩]
    ∧ (checkOnce ⟨"https://a.example", some "GET", JSVal.undefined⟩
        (fun _ => FetchOutcome.resp 405 "Method Not Allowed")).2
      = [⟨"https://a.example", "GET"⟩] := by
  refine ⟨?_, ?_, ?_⟩
  · have h := (mon_C5_head_get_fallback
      ⟨"https://a.example", some "HEAD", JSVal.undefined⟩
      (fun k => if k = 0 then FetchOutcome.resp 405 "Method Not Allowed"
                else FetchOutcome.resp 200 "OK")).1
      405 "Method Not Allowed" rfl rfl (Or.inl rfl)
    exact h
  · have h := (mon_C5_head_get_fallback
      ⟨"https://a.example", some "HEAD", JSVal.undefined⟩
      (fun _ => FetchOutcome.resp 200 "OK")).2.1
      200 "OK" rfl (by simp [probeMethod])
    exact h.1
  · have h := (mon_C5_head_get_fallback
      ⟨"https://a.example", some "GET", JSVal.undefined⟩
      (fun _ => FetchOutcome.resp 405 "Method Not Allowed")).2.1
      405 "Method Not Allowed" rfl (by simp [probeMethod])
    exact h.1

/-- Status of one `mapLimit` worker: ready to claim the next index,
awaiting `fn(items[idx])` for a claimed index, or finished (its
`while (i < items.length)` loop exited). -/
inductive WStatus where
  | idle : WStatus
  | running : Nat → WStatus
  | done : WStatus

/-- Pointwise update of a function, modelling assignment to `ret[idx]`
and to a worker's state. -/
def fupd {γ : Type} (g : Nat → γ) (i : Nat) (v : γ) : Nat → γ :=
  fun k => if k = i then v else g k

/-- State of a `mapLimit` run: the shared cursor `i`, the per-worker
states, and the results array (`none` = unassigned slot). -/
structure MLState (β : Type) where
  cursor : Nat
  workers : Nat → WStatus
  ret : Nat → Option β

/-- One scheduling step of `mapLimit`, advancing worker `w` at one of its
two suspension points.  The JS claim `const idx = i++` is synchronous
(no interleaving between the bounds check and the increment), so an idle
worker atomically claims the cursor and starts running, or exits its
loop when the cursor has reached the end; a running worker resumes from
its `await`, writes `ret[idx] = fn(items[idx])` and loops; steps naming
a nonexistent worker (`w ≥ wcount`) or a finished worker change
nothing. -/
def mlStep {β : Type} (n wcount : Nat) (res : Nat → Option β)
    (s : MLState β) (w : Nat) : MLState β :=
  if w < wcount then
    match s.workers w with
    | WStatus.idle =>
        if s.cursor < n then
          { cursor := s.cursor + 1
            workers := fupd s.workers w (WStatus.running s.cursor)
            ret := s.ret }
        else
          { s with workers := fupd s.workers w WStatus.done }
    | WStatus.running j =>
        { s with workers := fupd s.workers w WStatus.idle
                 ret := fupd s.ret j (res j) }
    | WStatus.done => s
  else s

/-- Initial `mapLimit` state: cursor 0, every worker idle, empty results
array. -/
def mlInit (β : Type) : MLState β :=
  ⟨0, fun _ => WStatus.idle, fun _ => none⟩

/-- A full `mapLimit` run under the completion-order schedule `sched`
(the sequence of worker indices that get to advance). -/
def mlRun {β : Type} (n wcount : Nat) (res : Nat → Option β)
    (sched : List Nat) : MLState β :=
  sched.foldl (mlStep n wcount res) (mlInit β)

/-- `Promise.all(workers)` has resolved: every worker's loop has
exited. -/
def mlCompleted {β : Type} (wcount : Nat) (s : MLState β) : Prop :=
  ∀ k, k < wcount → s.workers k = WStatus.done

/-- The per-slot result `fn(items[idx])` as a partial map. -/
def mlRes {α β : Type} (items : List α) (f : α → β) : Nat → Option β :=
  fun j => (items[j]?).map f

/-- `mapLimit(items, limit, fn)` of the source under an explicit
completion-order schedule: `min(limit, items.length)` workers race over
the shared cursor, and the returned array is read off the final state
(one slot per input index; an unwritten slot is `none`; in particular,
with zero workers the JS function resolves immediately and returns an
array with no elements, which reads back as all-`none` slots here). -/
def mapLimit {α β : Type} (items : List α) (limit : Nat) (f : α → β)
    (sched : List Nat) : List (Option β) :=
  (List.range items.length).map
    (mlRun items.length (min limit items.length) (mlRes items f) sched).ret

/-- Invariant of the `mapLimit` worker-pool state machine. -/
structure MLInv {β : Type} (n wcount : Nat) (res : Nat → Option β)
    (s : MLState β) : Prop where
  cursor_le : s.cursor ≤ n
  run_lt : ∀ k j, s.workers k = WStatus.running j → j < s.cursor
  run_inj : ∀ k1 k2 j, s.workers k1 = WStatus.running j →
      s.workers k2 = WStatus.running j → k1 = k2
  ret_done : ∀ j, j < s.cursor → (∀ k, s.workers k ≠ WStatus.running j) →
      s.ret j = res j
  ret_none : ∀ j, (s.cursor ≤ j ∨ ∃ k, s.workers k = WStatus.running j) →
      s.ret j = none
  done_cursor : ∀ k, s.workers k = WStatus.done → s.cursor = n
  hi_idle : ∀ k, wcount ≤ k → s.workers k = WStatus.idle

theorem mlInv_init {β : Type} (n wcount : Nat) (res : Nat → Option β) :
    MLInv n wcount res (mlInit β) := by
  refine ⟨?_, ?_, ?_, ?_, ?_, ?_, ?_⟩ <;> simp [mlInit]

theorem fupd_same {γ : Type} (g : Nat → γ) (i : Nat) (v : γ) :
    fupd g i v i = v := by
  simp [fupd]

theorem fupd_ne {γ : Type} (g : Nat → γ) {i k : Nat} (v : γ) (h : k ≠ i) :
    fupd g i v k = g k := by
  simp [fupd, h]


theorem mlInv_claim {β : Type} (n wcount : Nat) (res : Nat → Option β)
    (s : MLState β) (w : Nat) (hinv : MLInv n wcount res s)
    (hw : w < wcount) (hws : s.workers w = WStatus.idle)
    (hc : s.cursor < n) :
    MLInv n wcount res
      ⟨s.cursor + 1, fupd s.workers w (WStatus.running s.cursor), s.ret⟩ := by
  refine ⟨?_, ?_, ?_, ?_, ?_, ?_, ?_⟩
  · show s.cursor + 1 ≤ n
    omega
  · show ∀ k j, fupd s.workers w (WStatus.running s.cursor) k = WStatus.running j →
        j < s.cursor + 1
    intro k j hk
    by_cases hkw : k = w
    · subst hkw
      rw [fupd_same] at hk
      cases hk
      omega
    · rw [fupd_ne _ _ hkw] at hk
      have := hinv.run_lt k j hk
      omega
  · show ∀ k1 k2 j, fupd s.workers w (WStatus.running s.cursor) k1 = WStatus.running j →
        fupd s.workers w (WStatus.running s.cursor) k2 = WStatus.running j → k1 = k2
    intro k1 k2 j hk1 hk2
    by_cases h1 : k1 = w <;> by_cases h2 : k2 = w
    · rw [h1, h2]
    · subst h1
      rw [fupd_same] at hk1
      rw [fupd_ne _ _ h2] at hk2
      cases hk1
      exact absurd (hinv.run_lt k2 _ hk2) (by omega)
    · subst h2
      rw [fupd_same] at hk2
      rw [fupd_ne _ _ h1] at hk1
      cases hk2
      exact absurd (hinv.run_lt k1 _ hk1) (by omega)
    · rw [fupd_ne _ _ h1] at hk1
      rw [fupd_ne _ _ h2] at hk2
      exact hinv.run_inj k1 k2 j hk1 hk2
  · show ∀ j, j < s.cursor + 1 →
        (∀ k, fupd s.workers w (WStatus.running s.cursor) k ≠ WStatus.running j) →
        s.ret j = res j
    intro j hj hnr
    by_cases hjc : j = s.cursor
    · exfalso
      apply hnr w
      rw [fupd_same, hjc]
    · apply hinv.ret_done j (by omega)
      intro k hk
      by_cases hkw : k = w
      · subst hkw
        rw [hws] at hk
        cases hk
      · exact hnr k (by rw [fupd_ne _ _ hkw]; exact hk)
  · show ∀ j, (s.cursor + 1 ≤ j
        ∨ ∃ k, fupd s.workers w (WStatus.running s.cursor) k = WStatus.running j) →
        s.ret j = none
    intro j hj
    rcases hj with hj | ⟨k, hk⟩
    · exact hinv.ret_none j (Or.inl (by omega))
    · by_cases hkw : k = w
      · subst hkw
        rw [fupd_same] at hk
        cases hk
        exact hinv.ret_none _ (Or.inl (le_refl _))
      · rw [fupd_ne _ _ hkw] at hk
        exact hinv.ret_none j (Or.inr ⟨k, hk⟩)
  · show ∀ k, fupd s.workers w (WStatus.running s.cursor) k = WStatus.done →
        s.cursor + 1 = n
    intro k hk
    by_cases hkw : k = w
    · subst hkw
      rw [fupd_same] at hk
      cases hk
    · rw [fupd_ne _ _ hkw] at hk
      exact absurd (hinv.done_cursor k hk) (by omega)
  · show ∀ k, wcount ≤ k → fupd s.workers w (WStatus.running s.cursor) k = WStatus.idle
    intro k hk
    have hkw : k ≠ w := by omega
    rw [fupd_ne _ _ hkw]
    exact hinv.hi_idle k hk

theorem mlInv_exit {β : Type} (n wcount : Nat) (res : Nat → Option β)
    (s : MLState β) (w : Nat) (hinv : MLInv n wcount res s)
    (hw : w < wcount) (hws : s.workers w = WStatus.idle)
    (hc : ¬s.cursor < n) :
    MLInv n wcount res { s with workers := fupd s.workers w WStatus.done } := by
  have hcn : s.cursor = n := by
    have := hinv.cursor_le
    omega
  refine ⟨?_, ?_, ?_, ?_, ?_, ?_, ?_⟩
  · show s.cursor ≤ n
    exact hinv.cursor_le
  · show ∀ k j, fupd s.workers w WStatus.done k = WStatus.running j → j < s.cursor
    intro k j hk
    by_cases hkw : k = w
    · subst hkw
      rw [fupd_same] at hk
      cases hk
    · rw [fupd_ne _ _ hkw] at hk
      exact hinv.run_lt k j hk
  · show ∀ k1 k2 j, fupd s.workers w WStatus.done k1 = WStatus.running j →
        fupd s.workers w WStatus.done k2 = WStatus.running j → k1 = k2
    intro k1 k2 j hk1 hk2
    by_cases h1 : k1 = w
    · subst h1
      rw [fupd_same] at hk1
      cases hk1
    · by_cases h2 : k2 = w
      · subst h2
        rw [fupd_same] at hk2
        cases hk2
      · rw [fupd_ne _ _ h1] at hk1
        rw [fupd_ne _ _ h2] at hk2
        exact hinv.run_inj k1 k2 j hk1 hk2
  · show ∀ j, j < s.cursor →
        (∀ k, fupd s.workers w WStatus.done k ≠ WStatus.running j) → s.ret j = res j
    intro j hj hnr
    apply hinv.ret_done j hj
    intro k hk
    by_cases hkw : k = w
    · subst hkw
      rw [hws] at hk
      cases hk
    · exact hnr k (by rw [fupd_ne _ _ hkw]; exact hk)
  · show ∀ j, (s.cursor ≤ j ∨ ∃ k, fupd s.workers w WStatus.done k = WStatus.running j) →
        s.ret j = none
    intro j hj
    rcases hj with hj | ⟨k, hk⟩
    · exact hinv.ret_none j (Or.inl hj)
    · by_cases hkw : k = w
      · subst hkw
        rw [fupd_same] at hk
        cases hk
      · rw [fupd_ne _ _ hkw] at hk
        exact hinv.ret_none j (Or.inr ⟨k, hk⟩)
  · show ∀ k, fupd s.workers w WStatus.done k = WStatus.done → s.cursor = n
    intro k hk
    exact hcn
  · show ∀ k, wcount ≤ k → fupd s.workers w WStatus.done k = WStatus.idle
    intro k hk
    have hkw : k ≠ w := by omega
    rw [fupd_ne _ _ hkw]
    exact hinv.hi_idle k hk

theorem mlInv_write {β : Type} (n wcount : Nat) (res : Nat → Option β)
    (s : MLState β) (w j : Nat) (hinv : MLInv n wcount res s)
    (hw : w < wcount) (hws : s.workers w = WStatus.running j) :
    MLInv n wcount res
      { s with workers := fupd s.workers w WStatus.idle,
               ret := fupd s.ret j (res j) } := by
  have hj : j < s.cursor := hinv.run_lt w j hws
  refine ⟨?_, ?_, ?_, ?_, ?_, ?_, ?_⟩
  · show s.cursor ≤ n
    exact hinv.cursor_le
  · show ∀ k j2, fupd s.workers w WStatus.idle k = WStatus.running j2 → j2 < s.cursor
    intro k j2 hk
    by_cases hkw : k = w
    · subst hkw
      rw [fupd_same] at hk
      cases hk
    · rw [fupd_ne _ _ hkw] at hk
      exact hinv.run_lt k j2 hk
  · show ∀ k1 k2 j2, fupd s.workers w WStatus.idle k1 = WStatus.running j2 →
        fupd s.workers w WStatus.idle k2 = WStatus.running j2 → k1 = k2
    intro k1 k2 j2 hk1 hk2
    by_cases h1 : k1 = w
    · subst h1
      rw [fupd_same] at hk1
      cases hk1
    · by_cases h2 : k2 = w
      · subst h2
        rw [fupd_same] at hk2
        cases hk2
      · rw [fupd_ne _ _ h1] at hk1
        rw [fupd_ne _ _ h2] at hk2
        exact hinv.run_inj k1 k2 j2 hk1 hk2
  · show ∀ j2, j2 < s.cursor →
        (∀ k, fupd s.workers w WStatus.idle k ≠ WStatus.running j2) →
        fupd s.ret j (res j) j2 = res j2
    intro j2 hj2 hnr
    by_cases hjj : j2 = j
    · subst hjj
      rw [fupd_same]
    · rw [fupd_ne _ _ hjj]
      apply hinv.ret_done j2 hj2
      intro k hk
      by_cases hkw : k = w
      · subst hkw
        rw [hws] at hk
        cases hk
        exact hjj rfl
      · exact hnr k (by rw [fupd_ne _ _ hkw]; exact hk)
  · show ∀ j2, (s.cursor ≤ j2 ∨ ∃ k, fupd s.workers w WStatus.idle k = WStatus.running j2) →
        fupd s.ret j (res j) j2 = none
    intro j2 hj2
    by_cases hjj : j2 = j
    · exfalso
      subst hjj
      rcases hj2 with hj2 | ⟨k, hk⟩
      · omega
      · by_cases hkw : k = w
        · subst hkw
          rw [fupd_same] at hk
          cases hk
        · rw [fupd_ne _ _ hkw] at hk
          exact hkw (hinv.run_inj k w j2 hk hws)
    · rw [fupd_ne _ _ hjj]
      rcases hj2 with hj2 | ⟨k, hk⟩
      · exact hinv.ret_none j2 (Or.inl hj2)
      · by_cases hkw : k = w
        · subst hkw
          rw [fupd_same] at hk
          cases hk
        · rw [fupd_ne _ _ hkw] at hk
          exact hinv.ret_none j2 (Or.inr ⟨k, hk⟩)
  · show ∀ k, fupd s.workers w WStatus.idle k = WStatus.done → s.cursor = n
    intro k hk
    by_cases hkw : k = w
    · subst hkw
      rw [fupd_same] at hk
      cases hk
    · rw [fupd_ne _ _ hkw] at hk
      exact hinv.done_cursor k hk
  · show ∀ k, wcount ≤ k → fupd s.workers w WStatus.idle k = WStatus.idle
    intro k hk
    have hkw : k ≠ w := by omega
    rw [fupd_ne _ _ hkw]
    exact hinv.hi_idle k hk

theorem mlInv_step {β : Type} (n wcount : Nat) (res : Nat → Option β)
    (s : MLState β) (w : Nat) (hinv : MLInv n wcount res s) :
    MLInv n wcount res (mlStep n wcount res s w) := by
  unfold mlStep
  by_cases hw : w < wcount
  · rw [if_pos hw]
    cases hws : s.workers w with
    | idle =>
        dsimp only
        by_cases hc : s.cursor < n
        · rw [if_pos hc]
          exact mlInv_claim n wcount res s w hinv hw hws hc
        · rw [if_neg hc]
          exact mlInv_exit n wcount res s w hinv hw hws hc
    | running j =>
        dsimp only
        exact mlInv_write n wcount res s w j hinv hw hws
    | done => exact hinv
  · rw [if_neg hw]
    exact hinv

theorem mlInv_foldl {β : Type} (n wcount : Nat) (res : Nat → Option β)
    (sched : List Nat) (s : MLState β) (h : MLInv n wcount res s) :
    MLInv n wcount res (sched.foldl (mlStep n wcount res) s) := by
  induction sched generalizing s with
  | nil => exact h
  | cons a t ih => exact ih _ (mlInv_step n wcount res s a h)

theorem mlInv_run {β : Type} (n wcount : Nat) (res : Nat → Option β)
    (sched : List Nat) :
    MLInv n wcount res (mlRun n wcount res sched) :=
  mlInv_foldl n wcount res sched _ (mlInv_init n wcount res)

theorem range_map_res {α β : Type} (f : α → β) (items : List α) :
    (List.range items.length).map (fun j => (items[j]?).map f)
      = items.map (fun a => some (f a)) := by
  induction items with
  | nil => rfl
  | cons a t ih =>
      rw [show (a :: t).length = t.length + 1 from rfl, List.range_succ_eq_map,
        List.map_cons, List.map_map, List.map_cons]
      congr 1
      · simp
      · rw [← ih]
        apply List.map_congr_left
        intro j hj
        simp [Function.comp]

/-- C6, amended (limit ≥ 1): for every target list, every concurrency
limit of at least 1, every per-target function and every completion-order
schedule under which the worker pool finishes, `mapLimit` returns exactly
one result per input, the result at position `i` being `f(items[i])`
regardless of the completion order; and for the empty target list every
schedule returns the empty sequence. -/
theorem mon_C6_scheduler {α β : Type} (items : List α) (limit : Nat)
    (f : α → β) (sched : List Nat) (hlimit : 1 ≤ limit)
    (hdone : mlCompleted (min limit items.length)
        (mlRun items.length (min limit items.length) (mlRes items f) sched)) :
    mapLimit items limit f sched = items.map (fun a => some (f a))
    ∧ (mapLimit items limit f sched).length = items.length
    ∧ (∀ sched2, mapLimit ([] : List α) limit f sched2 = []) := by
  have hmain : mapLimit items limit f sched = items.map (fun a => some (f a)) := by
    cases hitems : items with
    | nil => rfl
    | cons a t =>
        rw [← hitems]
        have hn : 0 < items.length := by rw [hitems]; simp
        have hwc : 0 < min limit items.length := by
          exact Nat.lt_min.mpr ⟨hlimit, hn⟩
        have hinv := mlInv_run items.length (min limit items.length)
          (mlRes items f) sched
        have hcur : (mlRun items.length (min limit items.length)
            (mlRes items f) sched).cursor = items.length :=
          hinv.done_cursor 0 (hdone 0 hwc)
        have hnorun : ∀ k j, (mlRun items.length (min limit items.length)
            (mlRes items f) sched).workers k ≠ WStatus.running j := by
          intro k j hk
          by_cases hkw : k < min limit items.length
          · rw [hdone k hkw] at hk
            cases hk
          · rw [hinv.hi_idle k (by omega)] at hk
            cases hk
        have hret : ∀ j, (mlRun items.length (min limit items.length)
            (mlRes items f) sched).ret j = mlRes items f j := by
          intro j
          by_cases hj : j < items.length
          · exact hinv.ret_done j (by rw [hcur]; exact hj) (fun k => hnorun k j)
          · rw [hinv.ret_none j (Or.inl (by rw [hcur]; omega))]
            unfold mlRes
            rw [List.getElem?_eq_none (by omega)]
            rfl
        unfold mapLimit
        rw [← range_map_res f items]
        exact List.map_congr_left (fun j _ => hret j)
  exact ⟨hmain, by rw [hmain]; simp, fun sched2 => rfl⟩

/-- C6, counterexample: with concurrency limit 0 and a non-empty target
list, the worker pool is empty, so the run is (vacuously) complete while
no per-target result was produced — `mapLimit` resolves without one
result per input (the JS function returns an array with no elements),
refuting the claim for arbitrary concurrency limits. -/
theorem mon_C6_counterexample :
    mlCompleted (min 0 ([5] : List Nat).length)
        (mlRun ([5] : List Nat).length (min 0 ([5] : List Nat).length)
          (mlRes [5] (fun v => v)) [])
    ∧ mapLimit ([5] : List Nat) 0 (fun v => v) [] = [none]
    ∧ [none] ≠ ([5] : List Nat).map (fun a => some a) := by
  refine ⟨?_, rfl, by simp⟩
  intro k hk
  simp at hk

/-- C6, witness: two targets, limit 2, a schedule in which the worker
holding target index 1 writes its result before the worker holding
index 0 — the output is still in input order. -/
theorem mon_C6_witness :
    mapLimit ([10, 20] : List Nat) 2 (fun v => v + 1) [0, 1, 1, 0, 0, 1]
      = ([10, 20] : List Nat).map (fun a => some (a + 1)) :=
  (mon_C6_scheduler ([10, 20] : List Nat) 2 (fun v => v + 1) [0, 1, 1, 0, 0, 1]
    (by omega)
    (by intro k hk
        have hk2 : k < 2 := by simpa using hk
        interval_cases k <;> rfl)).1

/-- The report the handler builds from the per-target results (the
fields of its JSON response body that derive from `results`): `down` is
`results.filter(r => !r.ok)`, `ok`/`allOk` is `down.length === 0`, and
the totals are `checked = results.length`, `down = down.length`,
`up = checked - down`. -/
structure Report where
  allOk : Bool
  checked : Nat
  downCount : Nat
  upCount : Nat
  downResults : List Summary
  allResults : List Summary

/-- The aggregation performed by the handler on the results list. -/
def buildReport (results : List Summary) : Report :=
  let down := results.filter (fun r => !r.ok)
  { allOk := down.length == 0
    checked := results.length
    downCount := down.length
    upCount := results.length - down.length
    downResults := down
    allResults := results }

/-- C7: for every sequence of per-target results, `downResults` is
exactly the subsequence of results with `ok = false` in their original
relative order (it is a sublist of `results`, contains exactly the
non-ok results); `checked` is the number of results, `down` the number
of down results, `up = checked - down` (equivalently
`down + up = checked`); `allOk` holds iff no result is down; and the
empty result list yields totals 0/0/0, `allOk = true` and empty
sequences. -/
theorem mon_C7_aggregation (results : List Summary) :
    (buildReport results).downResults = results.filter (fun r => !r.ok)
    ∧ List.Sublist (buildReport results).downResults results
    ∧ (∀ r ∈ (buildReport results).downResults, r.ok = false)
    ∧ (∀ r ∈ results, r.ok = false → r ∈ (buildReport results).downResults)
    ∧ (buildReport results).checked = results.length
    ∧ (buildReport results).downCount = (buildReport results).downResults.length
    ∧ (buildReport results).upCount
        = (buildReport results).checked - (buildReport results).downCount
    ∧ (buildReport results).downCount + (buildReport results).upCount
        = (buildReport results).checked
    ∧ ((buildReport results).allOk = true ↔ (buildReport results).downCount = 0)
    ∧ (buildReport results).allResults = results
    ∧ buildReport [] = ⟨true, 0, 0, 0, [], []⟩ := by
  refine ⟨rfl, ?_, ?_, ?_, rfl, rfl, rfl, ?_, ?_, rfl, rfl⟩
  · exact List.filter_sublist results
  · intro r hr
    have := List.of_mem_filter hr
    simpa using this
  · intro r hr hok
    apply List.mem_filter.mpr
    exact ⟨hr, by simp [hok]⟩
  · show (results.filter (fun r => !r.ok)).length
        + (results.length - (results.filter (fun r => !r.ok)).length)
        = results.length
    have := List.length_filter_le (fun r => !r.ok) results
    omega
  · show ((results.filter (fun r => !r.ok)).length == 0) = true
        ↔ (results.filter (fun r => !r.ok)).length = 0
    exact beq_iff_eq

/-- C7, witness: a single down result appears in `downResults`. -/
theorem mon_C7_witness :
    (⟨"https://b.example", false, JSVal.undefined, "HEAD", 1, some 500, none, []⟩ : Summary)
      ∈ (buildReport
          [⟨"https://b.example", false, JSVal.undefined, "HEAD", 1, some 500, none, []⟩]).downResults :=
  (mon_C7_aggregation
      [⟨"https://b.example", false, JSVal.undefined, "HEAD", 1, some 500, none, []⟩]).2.2.2.1
    ⟨"https://b.example", false, JSVal.undefined, "HEAD", 1, some 500, none, []⟩
    (by simp) rfl
